import Mathlib

/-!
Shallow embedding of the document rendering pipeline of the wp2pdf
repository (src/pdf_generator.py, src/cache_manager.py,
src/batch_processor.py, src/text_formatter.py), together with theorems
settling the spec's claims about it.

Conventions:
 - Python strings are modelled as `List Char` (wrapped in `String` where
   convenient); machine text measurement and page geometry use `ℚ`.
 - External collaborators (font metrics, the network, the glyph table)
   are parameters of the embedded functions, mirroring the spec's
   collaborator contracts.
-/

namespace Wp2Pdf

/-! ## Python string primitives

Helpers modelling the Python `str` operations the pipeline uses:
`str.strip()`, `str.split()` (no argument: split on whitespace runs),
`' '.join(...)`. Whitespace is the ASCII whitespace set Python uses for
these operations. -/

/-- The ASCII whitespace characters recognised by Python's `str.strip()` /
`str.split()` (space, tab, newline, carriage return, vertical tab, form feed). -/
def pyIsSpace (c : Char) : Bool :=
  c = ' ' || c = '\t' || c = '\n' || c = '\x0d' || c = '\x0b' || c = '\x0c'

/-- Python `str.strip()` on a character list: drop leading and trailing
whitespace. -/
def pyStrip (l : List Char) : List Char :=
  ((l.dropWhile pyIsSpace).reverse.dropWhile pyIsSpace).reverse

/-- Auxiliary for `pyWords`: accumulate the current word (reversed). -/
def pyWordsAux : List Char → List Char → List (List Char)
  | [], [] => []
  | [], acc => [acc.reverse]
  | c :: rest, acc =>
    if pyIsSpace c then
      if acc = [] then pyWordsAux rest []
      else acc.reverse :: pyWordsAux rest []
    else pyWordsAux rest (c :: acc)

/-- Python `str.split()` with no separator: the maximal whitespace-free
runs of the string, in order, with no empty entries. -/
def pyWords (l : List Char) : List (List Char) :=
  pyWordsAux l []

/-- `' '.join(s.split())`: collapse every internal whitespace run to one
space and strip the ends — the normalization pass of `_process_content`. -/
def normalizeWs (l : List Char) : List Char :=
  List.intercalate [' '] (pyWords l)

/-! ## Text / glyph segmentation — `PDFGenerator._split_text_and_emojis`

The glyph-name table (`emoji.EMOJI_DATA`) is external static data; the
embedding takes it as a parameter `table : List (List Char)` whose order
models the table's iteration order (the code takes the first match, not
the longest).  The Python loop advances at least one character per
iteration whenever every table entry is non-empty; the embedding uses the
remaining length as fuel, which is exactly enough under that hypothesis. -/

/-- One step of the scan of `_split_text_and_emojis`: `acc` is the
pending plain-text run (reversed, like the Python `current_text`
accumulator built left to right), `rest` the unread input. At each
position, if some table entry is a prefix of the rest, flush `acc` as a
`(false, _)` text segment and emit the first matching entry as a
`(true, _)` glyph segment; otherwise move one character into `acc`. -/
def splitLoop (table : List (List Char)) :
    Nat → List Char → List Char → List (Bool × List Char)
  | _, acc, [] => if acc = [] then [] else [(false, acc.reverse)]
  | 0, acc, _ => if acc = [] then [] else [(false, acc.reverse)]
  | fuel + 1, acc, c :: rest =>
    match table.find? (fun em => em.isPrefixOf (c :: rest)) with
    | some em =>
      let tail := (c :: rest).drop em.length
      if acc = [] then (true, em) :: splitLoop table fuel [] tail
      else (false, acc.reverse) :: (true, em) :: splitLoop table fuel [] tail
    | none => splitLoop table fuel (c :: acc) rest

/-- `PDFGenerator._split_text_and_emojis`: split text into alternating
plain-text and glyph segments; the first component of a segment is `true`
for a glyph (`is_emoji`). -/
def splitTextAndEmojis (table : List (List Char)) (text : List Char) :
    List (Bool × List Char) :=
  splitLoop table text.length [] text

/-! ## Mixed-content line layout — `PDFGenerator._write_text_with_emojis`

The packing pass. Geometry is in `ℚ`; the font metrics provider
(`pdf.get_string_width`) is the parameter `widthOf`; `emojiSize` is the
fixed glyph width `font_size * 0.85 * (pdf.k / 72)`; `xStart` is
`pdf.l_margin` and `limit` is `pdf.w - pdf.r_margin`.  Each call of
`_write_line` made by the first pass is recorded as one emitted line,
paired with the `y` at which it is written; the vertical cursor advances
by `lineHeight` after every flush, exactly as the code does. -/

/-- Width reserved for a segment during packing: a glyph consumes the
fixed `emojiSize`, a text run its measured width. -/
def segWidth (widthOf : List Char → ℚ) (emojiSize : ℚ) (seg : Bool × List Char) : ℚ :=
  if seg.1 then emojiSize else widthOf seg.2

/-- Packing state: current x cursor, current y, the segments of the open
line (in order), and the lines flushed so far (with their y). -/
structure PackState where
  currentX : ℚ
  y : ℚ
  line : List (Bool × List Char)
  flushed : List (ℚ × List (Bool × List Char))
  deriving DecidableEq, Repr

/-- One iteration of the first pass of `_write_text_with_emojis`: if the
segment would cross `limit`, flush the open line (even when it is empty —
the code has no emptiness guard), advance y by `lineHeight`, and start a
fresh line; then append the segment and advance the x cursor by its
reserved width. -/
def packStep (widthOf : List Char → ℚ) (emojiSize xStart limit lineHeight : ℚ)
    (st : PackState) (seg : Bool × List Char) : PackState :=
  let w := segWidth widthOf emojiSize seg
  if st.currentX + w > limit then
    { currentX := xStart + w
      y := st.y + lineHeight
      line := [seg]
      flushed := st.flushed ++ [(st.y, st.line)] }
  else
    { st with currentX := st.currentX + w, line := st.line ++ [seg] }

/-- The full packing pass of `_write_text_with_emojis`: fold `packStep`
over the segments starting at `(xStart, yStart)` with an empty open line,
then flush the remaining open line if it is non-empty.  Returns the
emitted lines, each with the y position it is written at. -/
def layoutParagraph (widthOf : List Char → ℚ) (emojiSize xStart limit lineHeight yStart : ℚ)
    (segs : List (Bool × List Char)) : List (ℚ × List (Bool × List Char)) :=
  let st := segs.foldl (packStep widthOf emojiSize xStart limit lineHeight)
    { currentX := xStart, y := yStart, line := [], flushed := [] }
  if st.line = [] then st.flushed else st.flushed ++ [(st.y, st.line)]

/-! ## Line rendering — `PDFGenerator._write_line`

The second pass over one packed line.  The glyph cache lookup
(`cache_manager.get_emoji_image`) is the oracle parameter `cache`; a
`some` result draws the glyph image and advances the cursor by
`emojiSize`, a `none` result (cache miss) draws nothing and — as in the
code, where `current_x += emoji_size` sits inside the `if emoji_image:`
branch — leaves the cursor where it is.  A text segment is drawn at the
cursor and advances it by its measured width. -/

/-- The draw commands produced by `_write_line` for one line: each drawn
segment paired with the x at which it is placed. -/
def renderLine (cache : List Char → Option String) (widthOf : List Char → ℚ)
    (emojiSize : ℚ) : ℚ → List (Bool × List Char) → List (ℚ × (Bool × List Char))
  | _, [] => []
  | x, seg :: rest =>
    if seg.1 then
      match cache seg.2 with
      | some _ => (x, seg) :: renderLine cache widthOf emojiSize (x + emojiSize) rest
      | none => renderLine cache widthOf emojiSize x rest
    else
      (x, seg) :: renderLine cache widthOf emojiSize (x + widthOf seg.2) rest

/-- The horizontal positions the packing pass assigns to the segments of
one line: a running cursor from the line's start, advancing by each
segment's reserved width. -/
def packedPositions (widthOf : List Char → ℚ) (emojiSize : ℚ) :
    ℚ → List (Bool × List Char) → List (ℚ × (Bool × List Char))
  | _, [] => []
  | x, seg :: rest =>
    (x, seg) :: packedPositions widthOf emojiSize
      (x + segWidth widthOf emojiSize seg) rest

/-! ## Image fitting and placement — `PDFGenerator.create_pdf`, image loop -/

/-- Dimensions of a decoded image (a PIL `Image`): positive width and
height in pixels, modelled in `ℚ` for the geometry. -/
structure ImgDims where
  width : ℚ
  height : ℚ
  deriving DecidableEq, Repr

/-- The display-dimension computation of the image loop in `create_pdf`:
start from the full available width (`pdf.w - 2*20`), scale height by the
aspect ratio `height/width`, and if that overflows the available height
(`pdf.h - pdf.t_margin - pdf.b_margin`), shrink to the available height
instead.  Returns `(displayWidth, displayHeight)`. -/
def fitImage (pageW pageH tMargin bMargin : ℚ) (img : ImgDims) : ℚ × ℚ :=
  let availableHeight := pageH - tMargin - bMargin
  let availableWidth := pageW - 2 * 20
  let imgWidth := availableWidth
  let aspect := img.height / img.width
  let imgHeight := imgWidth * aspect
  if imgHeight > availableHeight then
    (availableHeight / aspect, availableHeight)
  else
    (imgWidth, imgHeight)

/-- Events of the page-composer's image loop. -/
inductive ComposeEvent where
  | newPage : ComposeEvent
  | placeImage (img : ImgDims) (w x y : ℚ) : ComposeEvent
  deriving DecidableEq, Repr

/-- The image loop of `create_pdf`: for each entry, a falsy (`None`)
image is skipped with no effect; otherwise a page break is forced
unconditionally, the display width is computed by `fitImage`, and the
image is placed centered horizontally at a fixed top offset
(`pdf.t_margin + 10`). -/
def placeImages (pageW pageH tMargin bMargin : ℚ) :
    List (Option ImgDims) → List ComposeEvent
  | [] => []
  | none :: rest => placeImages pageW pageH tMargin bMargin rest
  | some img :: rest =>
    let dims := fitImage pageW pageH tMargin bMargin img
    ComposeEvent.newPage ::
      ComposeEvent.placeImage img dims.1 ((pageW - dims.1) / 2) (tMargin + 10) ::
      placeImages pageW pageH tMargin bMargin rest

/-! ## HTML model and the content extractor — `PDFGenerator._process_content`

The HTML parser (BeautifulSoup) is an external collaborator; its output
is modelled as a tree of elements and text nodes.  `getTextStrip` models
`element.get_text(strip=True)` (concatenation of the stripped descendant
strings); `htmlUnescape` models `html.unescape` on the five standard
named/numeric entities the pipeline's inputs use (on text without `&` it
is the identity, which is the case the theorems need). -/

/-- A parsed HTML node: an element with a tag name and children, or a
text node. -/
inductive Html where
  | elem (name : String) (children : List Html) : Html
  | txt (s : List Char) : Html

mutual

/-- `element.get_text(strip=True)`: every descendant string, stripped,
concatenated in document order. -/
def getTextStrip : Html → List Char
  | .txt s => pyStrip s
  | .elem _ cs => getTextStripList cs

/-- `getTextStrip` over a child list. -/
def getTextStripList : List Html → List Char
  | [] => []
  | n :: rest => getTextStrip n ++ getTextStripList rest

end

mutual

/-- `element.decompose()` applied to every `script`/`style` element:
remove such elements (with their whole subtree) everywhere. Returns
`none` when the node itself is removed. -/
def pruneNode : Html → Option Html
  | .txt s => some (.txt s)
  | .elem name cs =>
    if name = "script" ∨ name = "style" then none
    else some (.elem name (pruneList cs))

/-- `pruneNode` over a child list, dropping removed nodes. -/
def pruneList : List Html → List Html
  | [] => []
  | n :: rest =>
    match pruneNode n with
    | some n' => n' :: pruneList rest
    | none => pruneList rest

end

/-- Models `html.unescape` on the standard entities `&amp; &lt; &gt;
&quot; &#39;`; any other text, in particular text containing no `&`, is
passed through unchanged. -/
def htmlUnescapeFuel : Nat → List Char → List Char
  | _, [] => []
  | 0, l => l
  | fuel + 1, c :: rest =>
    if c = '&' then
      if List.isPrefixOf ['a', 'm', 'p', ';'] rest then
        '&' :: htmlUnescapeFuel fuel (rest.drop 4)
      else if List.isPrefixOf ['l', 't', ';'] rest then
        '<' :: htmlUnescapeFuel fuel (rest.drop 3)
      else if List.isPrefixOf ['g', 't', ';'] rest then
        '>' :: htmlUnescapeFuel fuel (rest.drop 3)
      else if List.isPrefixOf ['q', 'u', 'o', 't', ';'] rest then
        '"' :: htmlUnescapeFuel fuel (rest.drop 5)
      else if List.isPrefixOf ['#', '3', '9', ';'] rest then
        '\'' :: htmlUnescapeFuel fuel (rest.drop 4)
      else '&' :: htmlUnescapeFuel fuel rest
    else c :: htmlUnescapeFuel fuel rest

/-- `html.unescape` on a character list: scan with fuel equal to the
length (one unit per examined character, which the scan always at least
consumes). -/
def htmlUnescape (l : List Char) : List Char :=
  htmlUnescapeFuel l.length l

/-- The block tags `_process_content` recognises. -/
def blockTags : List String :=
  ["p", "div", "h1", "h2", "h3", "h4", "h5", "h6", "blockquote"]

/-- Flush the pending inline accumulator (`current_text`): join with
single spaces, strip, and append as a paragraph if non-empty. -/
def flushPending (st : List (List Char) × List (List Char)) :
    List (List Char) × List (List Char) :=
  let combined := pyStrip (List.intercalate [' '] st.2)
  if combined = [] then (st.1, []) else (st.1 ++ [combined], [])

/-- One iteration of the traversal loop of `_process_content` over a
top-level node, on state `(paragraphs, current_text)`: a recognised block
element flushes the accumulator and emits its own stripped, unescaped
text; a `br` only flushes; a text node appends its stripped, unescaped
content to the accumulator; any other element matches no branch and is
skipped entirely. -/
def contentStep (st : List (List Char) × List (List Char)) (node : Html) :
    List (List Char) × List (List Char) :=
  match node with
  | .elem name cs =>
    if name ∈ blockTags then
      let st1 := flushPending st
      let t := getTextStrip (.elem name cs)
      if t = [] then st1 else (st1.1 ++ [htmlUnescape t], [])
    else if name = "br" then flushPending st
    else st
  | .txt s =>
    let t := pyStrip s
    if t = [] then st else (st.1, st.2 ++ [htmlUnescape t])

/-- `PDFGenerator._process_content` on a parsed top-level node list:
prune `script`/`style`, traverse collecting paragraphs, flush the
remaining accumulator, then normalize whitespace in every paragraph and
drop the ones that become empty; an empty result becomes the placeholder
paragraph. -/
def processContent (nodes : List Html) : List (List Char) :=
  let pruned := pruneList nodes
  let st := flushPending (pruned.foldl contentStep ([], []))
  let cleaned := (st.1.map normalizeWs).filter (fun p => p ≠ [])
  if cleaned = [] then ["No content available".toList] else cleaned

/-- Models the BeautifulSoup parse of the HTML string formed by wrapping
a markup-free paragraph `P` (no `<` character) in `<p>` tags: a single
`p` element whose only child is the text node `P`. -/
def parseWrappedP (P : List Char) : List Html :=
  [Html.elem "p" [Html.txt P]]

/-! ## Glyph cache — `CacheManager.get_emoji_image`

The cache state is the in-memory mapping (an association list, newest
binding first, modelling Python dict assignment) together with the set of
files present in the cache directory.  The content hash (`hashlib.md5`)
and the network (`requests.get` to the glyph provider) are external, so
the embedding takes a deterministic `hashHex` and a fetch oracle `fetch`
as parameters; the returned `Nat` counts the network fetches the call
performed. -/

/-- The glyph cache state: the persisted name-to-file mapping and the
files on disk in the cache directory. -/
structure CacheState where
  mapping : List (String × String)
  disk : List String
  deriving DecidableEq, Repr

/-- `CacheManager._get_emoji_filename`: a deterministic content-hash
derived cache filename. -/
def getEmojiFilename (hashHex : String → String) (k : String) : String :=
  "emoji_" ++ hashHex k ++ ".png"

/-- `CacheManager.get_emoji_image`: if the key is in the mapping, return
its cached path at once; otherwise derive the hash filename and, if that
file already exists on disk (self-healing), adopt it into the mapping;
otherwise fetch from the network — on failure return `none` with the
state unchanged, on success persist the file and the mapping entry.
Returns `(result, new state, number of network fetches)`. -/
def getEmojiImage (hashHex : String → String) (fetch : String → Option String)
    (st : CacheState) (k : String) : Option String × CacheState × Nat :=
  match st.mapping.lookup k with
  | some fn => (some ("emoji_cache/" ++ fn), st, 0)
  | none =>
    let fn := getEmojiFilename hashHex k
    if fn ∈ st.disk then
      (some ("emoji_cache/" ++ fn), ⟨(k, fn) :: st.mapping, st.disk⟩, 0)
    else
      match fetch k with
      | none => (none, st, 1)
      | some _bytes =>
        (some ("emoji_cache/" ++ fn), ⟨(k, fn) :: st.mapping, fn :: st.disk⟩, 1)

/-! ## Date parsing and formatting — `PDFGenerator._format_date`

`datetime.fromisoformat` is modelled on the grammar the pipeline feeds
it: `YYYY-MM-DD`, optionally followed by a one-character separator and a
time `HH:MM` or `HH:MM:SS`, optionally followed by a UTC offset
`±HH:MM`; fields are range-checked (month 1–12, day within the month,
hour < 24, minute/second < 60, year ≥ 1).  The code first replaces every
literal `Z` with `+00:00` (`date_str.replace('Z', '+00:00')`). -/

/-- A parsed naive/aware datetime (the offset does not affect any output
the pipeline produces, so only the wall-clock fields are kept). -/
structure PyDateTime where
  year : Nat
  month : Nat
  day : Nat
  hour : Nat
  minute : Nat
  second : Nat
  deriving DecidableEq, Repr

/-- Numeric value of a digit list (caller checks digits). -/
def digitsToNat (l : List Char) : Nat :=
  l.foldl (fun n c => 10 * n + (c.toNat - 48)) 0

/-- Gregorian month length, as `datetime` validates days. -/
def daysInMonth (y m : Nat) : Nat :=
  if m = 2 then
    if y % 4 = 0 ∧ (y % 100 ≠ 0 ∨ y % 400 = 0) then 29 else 28
  else if m = 4 ∨ m = 6 ∨ m = 9 ∨ m = 11 then 30
  else 31

/-- Parse the 10-character `YYYY-MM-DD` date part with range checks. -/
def parseDatePart (s : List Char) : Option (Nat × Nat × Nat) :=
  match s with
  | [y1, y2, y3, y4, h1, m1, m2, h2, d1, d2] =>
    if ([y1, y2, y3, y4, m1, m2, d1, d2].all Char.isDigit) ∧ h1 = '-' ∧ h2 = '-' then
      let y := digitsToNat [y1, y2, y3, y4]
      let m := digitsToNat [m1, m2]
      let d := digitsToNat [d1, d2]
      if 1 ≤ y ∧ 1 ≤ m ∧ m ≤ 12 ∧ 1 ≤ d ∧ d ≤ daysInMonth y m then
        some (y, m, d)
      else none
    else none
  | _ => none

/-- Parse `HH:MM` or `HH:MM:SS` with range checks. -/
def parseTimePart (s : List Char) : Option (Nat × Nat × Nat) :=
  match s with
  | [h1, h2, c1, m1, m2] =>
    if ([h1, h2, m1, m2].all Char.isDigit) ∧ c1 = ':' then
      let hh := digitsToNat [h1, h2]
      let mm := digitsToNat [m1, m2]
      if hh < 24 ∧ mm < 60 then some (hh, mm, 0) else none
    else none
  | [h1, h2, c1, m1, m2, c2, s1, s2] =>
    if ([h1, h2, m1, m2, s1, s2].all Char.isDigit) ∧ c1 = ':' ∧ c2 = ':' then
      let hh := digitsToNat [h1, h2]
      let mm := digitsToNat [m1, m2]
      let ss := digitsToNat [s1, s2]
      if hh < 24 ∧ mm < 60 ∧ ss < 60 then some (hh, mm, ss) else none
    else none
  | _ => none

/-- Parse a trailing `±HH:MM` UTC offset, or accept the empty suffix. -/
def offsetOk (s : List Char) : Bool :=
  match s with
  | [] => true
  | [sgn, h1, h2, c1, m1, m2] =>
    (sgn = '+' ∨ sgn = '-') ∧ c1 = ':' ∧ ([h1, h2, m1, m2].all Char.isDigit) ∧
      digitsToNat [h1, h2] < 24 ∧ digitsToNat [m1, m2] < 60
  | _ => false

/-- Models `datetime.fromisoformat` on the grammar described above. -/
def parseIsoDate (s : List Char) : Option PyDateTime :=
  match parseDatePart (s.take 10) with
  | none => none
  | some (y, m, d) =>
    match s.drop 10 with
    | [] => some ⟨y, m, d, 0, 0, 0⟩
    | _sep :: timeRest =>
      if offsetOk (timeRest.drop 8) ∧ timeRest.length ≥ 8 then
        match parseTimePart (timeRest.take 8) with
        | some (hh, mm, ss) => some ⟨y, m, d, hh, mm, ss⟩
        | none =>
          if offsetOk (timeRest.drop 5) then
            match parseTimePart (timeRest.take 5) with
            | some (hh, mm, ss) => some ⟨y, m, d, hh, mm, ss⟩
            | none => none
          else none
      else if offsetOk (timeRest.drop 5) then
        match parseTimePart (timeRest.take 5) with
        | some (hh, mm, ss) => some ⟨y, m, d, hh, mm, ss⟩
        | none => none
      else none

/-- `date_str.replace('Z', '+00:00')`: every literal `Z` becomes
`+00:00`. -/
def replaceZ : List Char → List Char
  | [] => []
  | c :: rest =>
    if c = 'Z' then '+' :: '0' :: '0' :: ':' :: '0' :: '0' :: replaceZ rest
    else c :: replaceZ rest

/-- Zero-padded 2-digit decimal rendering (`strftime` field). -/
def fmt2 (n : Nat) : List Char :=
  if n < 10 then '0' :: (toString n).toList else (toString n).toList

/-- Zero-padded 4-digit decimal rendering (`strftime` `%Y`). -/
def fmt4 (n : Nat) : List Char :=
  if n < 10 then '0' :: '0' :: '0' :: (toString n).toList
  else if n < 100 then '0' :: '0' :: (toString n).toList
  else if n < 1000 then '0' :: (toString n).toList
  else (toString n).toList

/-- `strftime('%Y%m%d')`. -/
def fmtDate8 (dt : PyDateTime) : List Char :=
  fmt4 dt.year ++ fmt2 dt.month ++ fmt2 dt.day

/-- `PDFGenerator._format_date`: render `YYYYMMDD @ HH:MM`; on any parse
failure, log and return the raw input string. -/
def formatDate (s : List Char) : List Char :=
  match parseIsoDate (replaceZ s) with
  | some dt => fmtDate8 dt ++ " @ ".toList ++ fmt2 dt.hour ++ [':'] ++ fmt2 dt.minute
  | none => s

/-! ## `_clean_html_text` and the filename — `PDFGenerator._get_filename` -/

/-- Auxiliary for `stripTags`: scan with a flag recording whether the
cursor is inside a `<...>` tag span. -/
def stripTagsB : Bool → List Char → List Char
  | _, [] => []
  | true, c :: rest =>
    if c = '>' then stripTagsB false rest else stripTagsB true rest
  | false, c :: rest =>
    if c = '<' then stripTagsB true rest else c :: stripTagsB false rest

/-- Models `BeautifulSoup(text, 'html.parser').get_text()` on simple
well-formed markup: drop every `<...>` tag span, keep the rest. -/
def stripTags (l : List Char) : List Char :=
  stripTagsB false l

/-- `PDFGenerator._clean_html_text`: decode HTML entities, then strip any
remaining tags. -/
def cleanHtmlText (l : List Char) : List Char :=
  stripTags (htmlUnescape l)

/-- Models Python's `\w` character class on the ASCII range:
alphanumeric or underscore. -/
def charW (c : Char) : Bool :=
  c.isAlphanum || c = '_'

/-- The `[-\s]` character class: whitespace or hyphen. -/
def isHyphenSpace (c : Char) : Bool :=
  pyIsSpace c || c = '-'

/-- `re.sub(r'[^\w\s-]', '', title)`: delete every character that is not
a word character, whitespace, or hyphen. -/
def dropNonWordChars (l : List Char) : List Char :=
  l.filter (fun c => charW c || pyIsSpace c || c = '-')

/-- The run-replacement scan with an explicit flag recording whether the
previous character belonged to a separator run. -/
def collapseSepsB : Bool → List Char → List Char
  | _, [] => []
  | b, c :: rest =>
    if isHyphenSpace c then
      if b then collapseSepsB true rest else '_' :: collapseSepsB true rest
    else c :: collapseSepsB false rest

/-- `re.sub(r'[-\s]+', '_', title)`: replace each maximal run of
whitespace/hyphen characters with a single underscore. -/
def collapseSeps (l : List Char) : List Char :=
  collapseSepsB false l

/-- `title[:50].strip('_')`: truncate to 50 characters and strip
underscores from both ends. -/
def capAndTrim (l : List Char) : List Char :=
  (((l.take 50).dropWhile (fun c => c = '_')).reverse.dropWhile
    (fun c => c = '_')).reverse

/-- The title-cleaning pipeline of `_get_filename`. -/
def slugOfTitle (title : List Char) : List Char :=
  capAndTrim (collapseSeps (dropNonWordChars title))

/-- The post fields the rendering pipeline reads: `id`, the rendered
title, and the `date` string. -/
structure PostRecord where
  id : Nat
  title : List Char
  date : List Char
  deriving DecidableEq, Repr

/-- `PDFGenerator._get_filename`: on a parseable date,
`YYYYMMDD_<slug>.pdf` from the cleaned title; on parse failure, the
fallback `unknown_date_<id>.pdf`. -/
def getFilename (post : PostRecord) : List Char :=
  match parseIsoDate (replaceZ post.date) with
  | some dt =>
    fmtDate8 dt ++ ['_'] ++ slugOfTitle (cleanHtmlText post.title) ++ ".pdf".toList
  | none => "unknown_date_".toList ++ (toString post.id).toList ++ ".pdf".toList

/-! ## Text formatter and output paths — `TextFormatter`, `BatchProcessor` -/

/-- `TextFormatter.clean_for_path`: lowercase, strip, spaces to
underscores, keep only alphanumerics and underscores, truncate to 50 and
strip trailing underscores; empty input or empty result give
`untitled`. -/
def cleanForPath (text : List Char) : List Char :=
  if text = [] then "untitled".toList
  else
    let t := if '<' ∈ text ∧ '>' ∈ text then stripTags text else text
    let t := pyStrip (t.map Char.toLower)
    let t := t.map (fun c => if c = ' ' then '_' else c)
    let t := t.filter (fun c => c.isAlphanum || c = '_')
    let t := ((t.take 50).reverse.dropWhile (fun c => c = '_')).reverse
    if t = [] then "untitled".toList else t

/-- `TextFormatter.clean_for_display`: strip tags if present, collapse
whitespace, strip. -/
def cleanForDisplay (text : List Char) : List Char :=
  if text = [] then []
  else
    let t := if '<' ∈ text ∧ '>' ∈ text then stripTags text else text
    pyStrip (normalizeWs t)

/-- `BatchProcessor.get_post_directory`: the per-post output directory
`<base>/<id>_<cleanForPath title>` that successful documents are written
into (`PDFGenerator` is constructed on it in `process_posts`). -/
def postDirectory (baseDir : List Char) (post : PostRecord) : List Char :=
  baseDir ++ ['/'] ++ (toString post.id).toList ++ ['_'] ++ cleanForPath post.title

/-- `BatchProcessor.__init__`: the errors directory `<base>/errors`. -/
def errorsDirectory (baseDir : List Char) : List Char :=
  baseDir ++ "/errors".toList

/-- The path of a successful post's document:
`get_post_directory(post) / _get_filename(post)`. -/
def successPdfPath (baseDir : List Char) (post : PostRecord) : List Char :=
  postDirectory baseDir post ++ ['/'] ++ getFilename post

/-- `BatchProcessor.create_error_pdf`: the degraded document's path —
the errors directory joined with
`error_<id>_<cleanForPath (cleanForDisplay title)>.pdf`. -/
def errorPdfPath (baseDir : List Char) (post : PostRecord) : List Char :=
  errorsDirectory baseDir ++ ['/'] ++ "error_".toList ++ (toString post.id).toList
    ++ ['_'] ++ cleanForPath (cleanForDisplay post.title) ++ ".pdf".toList

/-! ## Supporting lemmas -/

/-- A list that a successful `isPrefixOf` test accepts decomposes the
tested list. -/
theorem append_of_isPrefixOf {l r : List Char} (h : l.isPrefixOf r = true) :
    ∃ t, l ++ t = r :=
  ( List.isPrefixOf_iff_prefix).mp h

/-- `pyStrip` only removes characters: the result is a sublist. -/
theorem pyStrip_sublist (l : List Char) : List.Sublist (pyStrip l) l := by
  have h1 : List.Sublist (l.dropWhile pyIsSpace) l := List.dropWhile_sublist pyIsSpace
  have h2 : List.Sublist ((l.dropWhile pyIsSpace).reverse.dropWhile pyIsSpace)
      (l.dropWhile pyIsSpace).reverse := List.dropWhile_sublist pyIsSpace
  have h3 := h2.reverse
  simp only [List.reverse_reverse] at h3
  exact h3.trans h1

/-- The fuelled unescape scan is the identity on text containing no
ampersand. -/
theorem htmlUnescapeFuel_eq_self : ∀ (fuel : Nat) (l : List Char),
    '&' ∉ l → htmlUnescapeFuel fuel l = l
  | fuel, [], _ => by cases fuel <;> rfl
  | 0, _ :: _, _ => rfl
  | fuel + 1, c :: rest, h => by
    have hc : ¬(c = '&') := fun hc => h (hc ▸ List.mem_cons_self c rest)
    have hrest : '&' ∉ rest := fun hr => h (List.mem_cons_of_mem c hr)
    simp [htmlUnescapeFuel, hc, htmlUnescapeFuel_eq_self fuel rest hrest]

/-- `htmlUnescape` is the identity on text containing no ampersand. -/
theorem htmlUnescape_eq_self (l : List Char) (h : '&' ∉ l) :
    htmlUnescape l = l :=
  htmlUnescapeFuel_eq_self l.length l h

/-- Scanning a fully-whitespace tail only flushes the pending word. -/
theorem pyWordsAux_all_space : ∀ (t : List Char), (∀ c ∈ t, pyIsSpace c = true) →
    ∀ acc, pyWordsAux t acc = pyWordsAux [] acc
  | [], _, _ => rfl
  | c :: rest, h, acc => by
    have hc : pyIsSpace c = true := h c (List.mem_cons_self c rest)
    have hrest : ∀ d ∈ rest, pyIsSpace d = true :=
      fun d hd => h d (List.mem_cons_of_mem c hd)
    have hnil := pyWordsAux_all_space rest hrest []
    by_cases hacc : acc = [] <;>
      simp [pyWordsAux, hc, hacc, hnil]

/-- Appending a fully-whitespace tail does not change the scanned
words. -/
theorem pyWordsAux_append_space : ∀ (s : List Char) (t : List Char),
    (∀ c ∈ t, pyIsSpace c = true) → ∀ acc,
    pyWordsAux (s ++ t) acc = pyWordsAux s acc
  | [], t, h, acc => by
    simpa [pyWordsAux] using pyWordsAux_all_space t h acc
  | c :: rest, t, h, acc => by
    by_cases hc : pyIsSpace c = true <;>
      by_cases hacc : acc = [] <;>
        simp [pyWordsAux, hc, hacc, pyWordsAux_append_space rest t h]

/-- Leading whitespace does not change the scanned words. -/
theorem pyWords_dropWhile (l : List Char) :
    pyWords (l.dropWhile pyIsSpace) = pyWords l := by
  induction l with
  | nil => rfl
  | cons c rest ih =>
    by_cases hc : pyIsSpace c = true
    · have : (c :: rest).dropWhile pyIsSpace = rest.dropWhile pyIsSpace := by
        simp [List.dropWhile_cons, hc]
      rw [this, ih]
      simp [pyWords, pyWordsAux, hc]
    · simp [List.dropWhile_cons, hc]

/-- Stripping leading and trailing whitespace does not change the word
list. -/
theorem pyWords_pyStrip (l : List Char) : pyWords (pyStrip l) = pyWords l := by
  set l1 := l.dropWhile pyIsSpace with hl1
  have hsplit : (l1.reverse.takeWhile pyIsSpace ++ l1.reverse.dropWhile pyIsSpace) =
      l1.reverse := List.takeWhile_append_dropWhile (p := pyIsSpace) (l := l1.reverse)
  have hdecomp : pyStrip l ++ (l1.reverse.takeWhile pyIsSpace).reverse = l1 := by
    have h := congrArg List.reverse hsplit
    rw [List.reverse_append, List.reverse_reverse] at h
    exact h
  have hallspace : ∀ c ∈ (l1.reverse.takeWhile pyIsSpace).reverse, pyIsSpace c = true := by
    intro c hc
    exact List.mem_takeWhile_imp (List.mem_reverse.mp hc)
  calc pyWords (pyStrip l)
      = pyWordsAux (pyStrip l) [] := rfl
    _ = pyWordsAux (pyStrip l ++ (l1.reverse.takeWhile pyIsSpace).reverse) [] :=
        (pyWordsAux_append_space _ _ hallspace []).symm
    _ = pyWords l1 := by rw [hdecomp]; rfl
    _ = pyWords l := pyWords_dropWhile l

/-- Whitespace normalization is insensitive to stripping first. -/
theorem normalizeWs_pyStrip (l : List Char) :
    normalizeWs (pyStrip l) = normalizeWs l := by
  unfold normalizeWs
  rw [pyWords_pyStrip]

/-- The scan of `splitLoop` is content-preserving: the concatenated
segment contents equal the pending accumulator (reversed) followed by the
unread input, provided every glyph-table entry is non-empty and the fuel
covers the remaining input. -/
theorem splitLoop_flatten (table : List (List Char))
    (hT : ∀ em ∈ table, em ≠ []) :
    ∀ (fuel : Nat) (acc rest : List Char), rest.length ≤ fuel →
      ((splitLoop table fuel acc rest).map Prod.snd).flatten = acc.reverse ++ rest
  | fuel, acc, [], _ => by
    cases fuel <;> by_cases hacc : acc = [] <;> simp [splitLoop, hacc]
  | fuel + 1, acc, c :: rest, hlen => by
    rw [splitLoop]
    cases hfind : table.find? (fun em => em.isPrefixOf (c :: rest)) with
    | none =>
      have ih := splitLoop_flatten table hT fuel (c :: acc) rest
        (by simpa using Nat.le_of_succ_le_succ hlen)
      simp [ih]
    | some em =>
      have hmem : em ∈ table := List.mem_of_find?_eq_some hfind
      have hpre : em.isPrefixOf (c :: rest) = true := by
        have := List.find?_some hfind
        simpa using this
      obtain ⟨t, ht⟩ := append_of_isPrefixOf hpre
      have hlen_em : 1 ≤ em.length := by
        have := hT em hmem
        cases em with
        | nil => exact absurd rfl this
        | cons x xs => simp
      have hdrop : (c :: rest).drop em.length = t := by
        rw [← ht, List.drop_left]
      have htail_len : t.length ≤ fuel := by
        have hcr : (c :: rest).length = em.length + t.length := by
          rw [← ht, List.length_append]
        have : rest.length + 1 ≤ fuel + 1 := by simpa using hlen
        omega
      have ih := splitLoop_flatten table hT fuel [] t htail_len
      by_cases hacc : acc = [] <;>
        simp [hacc, hdrop, ih, ← ht]

/-- `splitLoop` on exhausted input or exhausted fuel just flushes the
pending accumulator. -/
theorem splitLoop_eq_base (table : List (List Char)) (fuel : Nat)
    (acc rest : List Char) (h : rest = [] ∨ fuel = 0) :
    splitLoop table fuel acc rest =
      if acc = [] then [] else [(false, acc.reverse)] := by
  rcases h with rfl | rfl
  · cases fuel <;> rfl
  · cases rest <;> rfl

/-- `splitLoop` on remaining fuel and a non-empty input takes one scan
step. -/
theorem splitLoop_eq_step (table : List (List Char)) (fuel : Nat)
    (acc : List Char) (c : Char) (rest : List Char) :
    splitLoop table (fuel + 1) acc (c :: rest) =
      match table.find? (fun em => em.isPrefixOf (c :: rest)) with
      | some em =>
        if acc = [] then
          (true, em) :: splitLoop table fuel [] ((c :: rest).drop em.length)
        else
          (false, acc.reverse) :: (true, em) ::
            splitLoop table fuel [] ((c :: rest).drop em.length)
      | none => splitLoop table fuel (c :: acc) rest := rfl

/-- Every plain-text segment the scan emits is non-empty. -/
theorem splitLoop_text_ne_nil (table : List (List Char)) :
    ∀ (fuel : Nat) (acc rest : List Char),
      ∀ seg ∈ splitLoop table fuel acc rest, seg.1 = false → seg.2 ≠ []
  | 0, acc, rest, seg => by
    rw [splitLoop_eq_base table 0 acc rest (Or.inr rfl)]
    by_cases hacc : acc = []
    · simp [hacc]
    · rw [if_neg hacc]
      intro hmem
      rw [List.mem_singleton] at hmem
      subst hmem
      intro _ h
      exact hacc (by simpa using congrArg List.reverse h)
  | fuel + 1, acc, [], seg => by
    rw [splitLoop_eq_base table (fuel + 1) acc [] (Or.inl rfl)]
    by_cases hacc : acc = []
    · simp [hacc]
    · rw [if_neg hacc]
      intro hmem
      rw [List.mem_singleton] at hmem
      subst hmem
      intro _ h
      exact hacc (by simpa using congrArg List.reverse h)
  | fuel + 1, acc, c :: rest, seg => by
    rw [splitLoop_eq_step]
    cases hfind : table.find? (fun em => em.isPrefixOf (c :: rest)) with
    | none =>
      exact splitLoop_text_ne_nil table fuel (c :: acc) rest seg
    | some em =>
      dsimp only
      have ih := splitLoop_text_ne_nil table fuel []
        ((c :: rest).drop em.length)
      by_cases hacc : acc = []
      · rw [if_pos hacc]
        intro hmem
        rcases List.mem_cons.mp hmem with hseg | hseg
        · subst hseg; intro h; simp at h
        · exact ih seg hseg
      · rw [if_neg hacc]
        intro hmem
        rcases List.mem_cons.mp hmem with hseg | hseg
        · subst hseg
          intro _ h
          exact hacc (by simpa using congrArg List.reverse h)
        · rcases List.mem_cons.mp hseg with hseg2 | hseg2
          · subst hseg2; intro h; simp at h
          · exact ih seg hseg2

/-- No two adjacent emitted segments are both plain text. -/
theorem splitLoop_chain (table : List (List Char)) :
    ∀ (fuel : Nat) (acc rest : List Char),
      List.Chain' (fun a b => a.1 = true ∨ b.1 = true)
        (splitLoop table fuel acc rest)
  | 0, acc, rest => by
    rw [splitLoop_eq_base table 0 acc rest (Or.inr rfl)]
    by_cases hacc : acc = [] <;> simp [hacc]
  | fuel + 1, acc, [] => by
    rw [splitLoop_eq_base table (fuel + 1) acc [] (Or.inl rfl)]
    by_cases hacc : acc = [] <;> simp [hacc]
  | fuel + 1, acc, c :: rest => by
    rw [splitLoop_eq_step]
    cases hfind : table.find? (fun em => em.isPrefixOf (c :: rest)) with
    | none => exact splitLoop_chain table fuel (c :: acc) rest
    | some em =>
      dsimp only
      have ih := splitLoop_chain table fuel [] ((c :: rest).drop em.length)
      by_cases hacc : acc = []
      · rw [if_pos hacc]
        exact List.chain'_cons'.mpr ⟨fun b _ => Or.inl rfl, ih⟩
      · rw [if_neg hacc]
        refine List.chain'_cons'.mpr ⟨fun b hb => ?_, ?_⟩
        · simp only [List.head?_cons, Option.mem_def, Option.some_inj] at hb
          subst hb
          exact Or.inr rfl
        · exact List.chain'_cons'.mpr ⟨fun b _ => Or.inl rfl, ih⟩

/-! ## Definitions used to state the claims -/

/-- A concrete font-metrics instance for closed evaluations: each
character one unit wide. -/
def lenWidth (s : List Char) : ℚ :=
  s.length

/-- The composition `_write_text_with_emojis` performs: segment the
paragraph, then pack the segments into lines. -/
def writeTextLayout (table : List (List Char)) (widthOf : List Char → ℚ)
    (emojiSize xStart limit lineHeight yStart : ℚ) (text : List Char) :
    List (ℚ × List (Bool × List Char)) :=
  layoutParagraph widthOf emojiSize xStart limit lineHeight yStart
    (splitTextAndEmojis table text)

/-- Auxiliary for `collapseUnderscoreRuns`: flag records whether the
previous character was an underscore. -/
def collapseUnderscoreRunsB : Bool → List Char → List Char
  | _, [] => []
  | b, c :: rest =>
    if c = '_' then
      if b then collapseUnderscoreRunsB true rest
      else '_' :: collapseUnderscoreRunsB true rest
    else c :: collapseUnderscoreRunsB false rest

/-- Collapse each run of consecutive underscores to a single underscore
(used to state the claimed slug transformation). -/
def collapseUnderscoreRuns (l : List Char) : List Char :=
  collapseUnderscoreRunsB false l

/-- The slug transformation exactly as claim C7 words it: every
non-alphanumeric character of the cleaned title replaced by an
underscore, runs collapsed, capped at 50 characters, trailing
underscores trimmed. -/
def claimSlug (cleanedTitle : List Char) : List Char :=
  ((collapseUnderscoreRuns
      (cleanedTitle.map (fun c => if c.isAlphanum then c else '_'))).take
    50).reverse.dropWhile (fun c => c = '_') |>.reverse

/-- The run-replacement of `re.sub(r'[-\s]+', '_', ·)` written as a
single left fold with state "the previous character belonged to a
separator run". -/
def collapseSepsFold (l : List Char) : List Char :=
  (l.foldl
    (fun (st : List Char × Bool) c =>
      if isHyphenSpace c then
        if st.2 then st else (st.1 ++ ['_'], true)
      else (st.1 ++ [c], false))
    ([], false)).1

/-- The slug pipeline of `_get_filename` with the run-replacement in its
folded, single-pass formulation: delete characters that are neither word
characters nor whitespace nor hyphens, replace each whitespace/hyphen
run with one underscore, truncate to 50, strip underscores from both
ends. -/
def slugAmendedSpec (title : List Char) : List Char :=
  capAndTrim (collapseSepsFold (dropNonWordChars title))

/-! ### Equivalence of the scanned and folded run-replacement -/

/-- Entering a separator run, the scan skips the whole run after
emitting its single underscore. -/
theorem collapseSepsB_true_eq (l : List Char) :
    collapseSepsB true l = collapseSepsB false (l.dropWhile isHyphenSpace) := by
  induction l with
  | nil => rfl
  | cons c rest ih =>
    by_cases hc : isHyphenSpace c = true <;>
      simp [collapseSepsB, List.dropWhile_cons, hc, ih]

/-- The fold accumulates exactly the flagged formulation's output. -/
theorem collapseSepsFold_go : ∀ (l : List Char) (acc : List Char) (b : Bool),
    (l.foldl
      (fun (st : List Char × Bool) c =>
        if isHyphenSpace c then
          if st.2 then st else (st.1 ++ ['_'], true)
        else (st.1 ++ [c], false))
      (acc, b)).1 = acc ++ collapseSepsB b l
  | [], acc, b => by simp [collapseSepsB]
  | c :: rest, acc, b => by
    by_cases hc : isHyphenSpace c = true
    · cases b
      · simp only [List.foldl_cons, hc, if_true, Bool.false_eq_true, if_false]
        rw [collapseSepsFold_go rest (acc ++ ['_']) true]
        simp [collapseSepsB, hc]
      · simp only [List.foldl_cons, hc, if_true]
        rw [collapseSepsFold_go rest acc true]
        simp [collapseSepsB, hc]
    · simp only [List.foldl_cons, hc, if_false, Bool.false_eq_true]
      rw [collapseSepsFold_go rest (acc ++ [c]) false]
      simp [collapseSepsB, hc]

/-- The recursive and the folded run-replacement coincide. -/
theorem collapseSeps_eq_fold (l : List Char) :
    collapseSeps l = collapseSepsFold l := by
  unfold collapseSeps collapseSepsFold
  rw [collapseSepsFold_go l [] false]
  simp

/-! ### Decimal rendering of a post id -/

/-- `Nat.digitChar` of a value below ten is a decimal digit. -/
theorem digitChar_isDigit (m : Nat) (h : m < 10) : (Nat.digitChar m).isDigit = true := by
  interval_cases m <;> decide

/-- Every character `Nat.toDigitsCore` produces over base ten is a
decimal digit, given the same of the accumulator. -/
theorem toDigitsCore_digits : ∀ (f n : Nat) (l : List Char),
    (∀ c ∈ l, c.isDigit = true) →
    ∀ c ∈ Nat.toDigitsCore 10 f n l, c.isDigit = true := by
  intro f
  induction f with
  | zero => intro n l hl; simpa [Nat.toDigitsCore] using hl
  | succ f ih =>
    intro n l hl c hc
    simp only [Nat.toDigitsCore] at hc
    split at hc
    · rcases List.mem_cons.mp hc with rfl | h2
      · exact digitChar_isDigit _ (Nat.mod_lt _ (by norm_num))
      · exact hl c h2
    · refine ih (n / 10) _ ?_ c hc
      intro d hd
      rcases List.mem_cons.mp hd with rfl | h3
      · exact digitChar_isDigit _ (Nat.mod_lt _ (by norm_num))
      · exact hl d h3

/-- `Nat.toDigitsCore` never empties a non-empty accumulator. -/
theorem toDigitsCore_ne_nil : ∀ (f n : Nat) (l : List Char), l ≠ [] →
    Nat.toDigitsCore 10 f n l ≠ [] := by
  intro f
  induction f with
  | zero => intro n l hl; simpa [Nat.toDigitsCore] using hl
  | succ f ih =>
    intro n l hl
    simp only [Nat.toDigitsCore]
    split
    · simp
    · exact ih (n / 10) _ (by simp)

/-- The decimal string of a natural number consists of digits. -/
theorem natToString_digits (n : Nat) : ∀ c ∈ (toString n).toList, c.isDigit = true := by
  show ∀ c ∈ Nat.toDigitsCore 10 (n + 1) n [], c.isDigit = true
  exact toDigitsCore_digits (n + 1) n [] (by simp)

/-- The decimal string of a natural number is non-empty. -/
theorem natToString_ne_nil (n : Nat) : (toString n).toList ≠ [] := by
  show Nat.toDigitsCore 10 (n + 1) n [] ≠ []
  simp only [Nat.toDigitsCore]
  split
  · simp
  · exact toDigitsCore_ne_nil n (n / 10) [Nat.digitChar (n % 10)] (by simp)

/-- The errors directory never coincides with any post's own output
directory: the latter's name starts with the post id's first decimal
digit, the former with the letter `e`. -/
theorem errorsDir_ne_postDir (baseDir : List Char) (post : PostRecord) :
    errorsDirectory baseDir ≠ postDirectory baseDir post := by
  unfold errorsDirectory postDirectory
  intro h
  have h0 : baseDir ++ "/errors".toList =
      baseDir ++ (['/'] ++ ((toString post.id).toList ++ ['_'] ++
        cleanForPath post.title)) := by
    simpa [List.append_assoc] using h
  have h1 : "/errors".toList =
      ['/'] ++ ((toString post.id).toList ++ ['_'] ++ cleanForPath post.title) :=
    List.append_cancel_left h0
  cases hd : (toString post.id).toList with
  | nil => exact natToString_ne_nil post.id hd
  | cons c r =>
    rw [hd] at h1
    have h2 : "errors".toList = c :: (r ++ ['_'] ++ cleanForPath post.title) := by
      simpa using h1
    have hcEq : 'e' = c := by
      have h3 := congrArg List.head? h2
      simpa using h3
    have hdig : c.isDigit = true :=
      natToString_digits post.id c (hd ▸ List.mem_cons_self c r)
    rw [← hcEq] at hdig
    exact absurd hdig (by decide)

/-! ## Claims -/

/-- C1 (counterexample): at a concrete overlong single text segment (4
units wide, usable width 2), the packing pass emits TWO line flushes —
an empty line at the starting y, then the line with the segment one line
height lower — not exactly one LayoutLine. -/
theorem claim_C1_counterexample :
    lenWidth "abcd".toList > 3 - 1 ∧
    writeTextLayout [String.toList "😀"] lenWidth (51 / 5) 1 3 18 0 "abcd".toList =
      [(0, []), (18, [(false, "abcd".toList)])] ∧
    (writeTextLayout [String.toList "😀"] lenWidth (51 / 5) 1 3 18 0
      "abcd".toList).length ≠ 1 := by
  have hseg : splitTextAndEmojis [String.toList "😀"] "abcd".toList =
      [(false, "abcd".toList)] := by decide
  have hlay : writeTextLayout [String.toList "😀"] lenWidth (51 / 5) 1 3 18 0
      "abcd".toList = [(0, []), (18, [(false, "abcd".toList)])] := by
    unfold writeTextLayout layoutParagraph
    rw [hseg]
    norm_num [packStep, segWidth, lenWidth]
  exact ⟨by norm_num [lenWidth], hlay, by rw [hlay]; norm_num⟩

/-- C1 (amended): a paragraph whose segmentation is a single text
segment wider than the usable width `limit - xStart` produces exactly
two line flushes: an empty line at the starting y, then one LayoutLine
containing exactly that one segment (never split) one line height
lower. -/
theorem claim_C1_amended (table : List (List Char)) (widthOf : List Char → ℚ)
    (emojiSize xStart limit lineHeight yStart : ℚ) (text t : List Char)
    (hseg : splitTextAndEmojis table text = [(false, t)])
    (hwide : widthOf t > limit - xStart) :
    writeTextLayout table widthOf emojiSize xStart limit lineHeight yStart text =
      [(yStart, []), (yStart + lineHeight, [(false, t)])] := by
  unfold writeTextLayout layoutParagraph
  rw [hseg]
  simp only [List.foldl_cons, List.foldl_nil, packStep, segWidth]
  have hcond : limit < xStart + widthOf t := by linarith
  simp [hcond]

/-- C1 (witness): the amended statement at the concrete overlong
segment. -/
theorem claim_C1_witness :
    writeTextLayout [String.toList "😀"] lenWidth (51 / 5) 1 3 18 0 "abcd".toList =
      [(0, []), (0 + 18, [(false, "abcd".toList)])] :=
  claim_C1_amended [String.toList "😀"] lenWidth (51 / 5) 1 3 18 0
    "abcd".toList "abcd".toList (by decide) (by norm_num [lenWidth])

/-- C2 (counterexample): with a cache that misses the glyph, the glyph's
reserved width (`emojiSize = 51/5`) is NOT consumed by the render pass:
the following text segment is drawn at x = 10, while packing assigned it
x = 10 + 51/5. -/
theorem claim_C2_counterexample :
    renderLine (fun _ => none) lenWidth (51 / 5) 10
        [(true, String.toList "😀"), (false, ['a'])] =
      [(10, (false, ['a']))] ∧
    packedPositions lenWidth (51 / 5) 10
        [(true, String.toList "😀"), (false, ['a'])] =
      [(10, (true, String.toList "😀")), (10 + 51 / 5, (false, ['a']))] ∧
    (10 : ℚ) ≠ 10 + 51 / 5 := by
  refine ⟨?_, ?_, by norm_num⟩
  · norm_num [renderLine, lenWidth]
  · norm_num [packedPositions, segWidth, lenWidth]

/-- C2 (amended): on a glyph cache miss the render pass draws nothing
for the glyph and does not advance the cursor: the rest of the line is
drawn exactly as if the missed glyph were absent, so every subsequent
segment lands short of its packed position by the glyph's reserved
width. -/
theorem claim_C2_amended (cache : List Char → Option String)
    (widthOf : List Char → ℚ) (emojiSize x : ℚ) (g : List Char)
    (rest : List (Bool × List Char)) (h : cache g = none) :
    renderLine cache widthOf emojiSize x ((true, g) :: rest) =
      renderLine cache widthOf emojiSize x rest := by
  rw [renderLine]
  simp [h]

/-- C2 (witness): the amended statement at the concrete missed glyph. -/
theorem claim_C2_witness :
    renderLine (fun _ => none) lenWidth (51 / 5) 10
        ((true, String.toList "😀") :: [(false, ['a'])]) =
      renderLine (fun _ => none) lenWidth (51 / 5) 10 [(false, ['a'])] :=
  claim_C2_amended (fun _ => none) lenWidth (51 / 5) 10 (String.toList "😀")
    [(false, ['a'])] rfl

/-- C3: wrapping a markup-free paragraph (no `&`, no `<`) that is
non-empty after whitespace normalization in `<p>` tags and extracting
content yields exactly that paragraph with whitespace runs collapsed to
single spaces and the ends stripped. -/
theorem claim_C3 (P : List Char) (hAmp : '&' ∉ P) (hLt : '<' ∉ P)
    (hNe : normalizeWs P ≠ []) :
    processContent (parseWrappedP P) = [normalizeWs P] := by
  have hPstrip : pyStrip P ≠ [] := by
    intro h
    apply hNe
    rw [← normalizeWs_pyStrip, h]
    rfl
  have hAmpS : '&' ∉ pyStrip P := fun hm => hAmp ((pyStrip_sublist P).subset hm)
  have hUne : htmlUnescape (pyStrip P) = pyStrip P := htmlUnescape_eq_self _ hAmpS
  have hmem : "p" ∈ blockTags := by decide
  unfold processContent parseWrappedP
  have hprune : pruneList [Html.elem "p" [Html.txt P]] =
      [Html.elem "p" [Html.txt P]] := by
    simp [pruneList, pruneNode]
  have hpnil : pyStrip [] = [] := rfl
  have hflush1 : flushPending ([pyStrip P], []) = ([pyStrip P], []) := rfl
  rw [hprune]
  simp only [List.foldl_cons, List.foldl_nil]
  have hstep : contentStep ([], []) (Html.elem "p" [Html.txt P]) =
      ([pyStrip P], []) := by
    simp [contentStep, hmem, flushPending, getTextStrip, getTextStripList,
      hPstrip, hUne, List.intercalate, hpnil]
  rw [hstep, hflush1]
  simp [normalizeWs_pyStrip, hNe]

/-- C3 (witness): the extraction at the concrete paragraph
`"  Hi   there "`. -/
theorem claim_C3_witness :
    processContent (parseWrappedP "  Hi   there ".toList) = ["Hi there".toList] := by
  have h := claim_C3 "  Hi   there ".toList (by decide) (by decide) (by decide)
  rw [h]
  decide

/-- C4: for a decoded image with positive dimensions, the display
dimensions computed by the image loop preserve the aspect ratio
`r = height/width` and fit both the available height
(page height minus top and bottom margins) and the available width
(page width minus 20-unit margins on each side). -/
theorem claim_C4 (pageW pageH tMargin bMargin : ℚ) (img : ImgDims)
    (hw : 0 < img.width) (hh : 0 < img.height) :
    (fitImage pageW pageH tMargin bMargin img).1 * (img.height / img.width) ≤
        pageH - tMargin - bMargin ∧
    (fitImage pageW pageH tMargin bMargin img).2 * (1 / (img.height / img.width)) ≤
        pageW - 2 * 20 ∧
    (fitImage pageW pageH tMargin bMargin img).2 =
        (fitImage pageW pageH tMargin bMargin img).1 * (img.height / img.width) := by
  have hr : 0 < img.height / img.width := div_pos hh hw
  have hrne : img.height / img.width ≠ 0 := ne_of_gt hr
  simp only [fitImage]
  split_ifs with hov
  · refine ⟨?_, ?_, ?_⟩
    · rw [div_mul_cancel₀ _ hrne]
    · rw [mul_one_div, div_le_iff₀ hr]
      linarith
    · rw [div_mul_cancel₀ _ hrne]
  · push_neg at hov
    refine ⟨hov, ?_, rfl⟩
    rw [mul_one_div, mul_div_assoc, div_self hrne, mul_one]

/-- C4 (witness): the fit at a concrete 100×200 image on a 210×297 page
with 10-unit vertical margins. -/
theorem claim_C4_witness :
    (0 : ℚ) < 100 ∧ (0 : ℚ) < 200 ∧
    (fitImage 210 297 10 10 ⟨100, 200⟩).1 * ((200 : ℚ) / 100) ≤ 297 - 10 - 10 ∧
    (fitImage 210 297 10 10 ⟨100, 200⟩).2 * (1 / ((200 : ℚ) / 100)) ≤ 210 - 2 * 20 ∧
    (fitImage 210 297 10 10 ⟨100, 200⟩).2 =
      (fitImage 210 297 10 10 ⟨100, 200⟩).1 * ((200 : ℚ) / 100) :=
  ⟨by norm_num, by norm_num,
    claim_C4 210 297 10 10 ⟨100, 200⟩ (by norm_num) (by norm_num)⟩

/-- C5: the image loop is exactly one forced page break followed by one
placement per non-null image, in order; null entries contribute nothing
(no page break, no error). -/
theorem claim_C5 (pageW pageH tMargin bMargin : ℚ)
    (images : List (Option ImgDims)) :
    placeImages pageW pageH tMargin bMargin images =
      (images.filterMap id).flatMap (fun img =>
        [ComposeEvent.newPage,
         ComposeEvent.placeImage img (fitImage pageW pageH tMargin bMargin img).1
           ((pageW - (fitImage pageW pageH tMargin bMargin img).1) / 2)
           (tMargin + 10)]) := by
  induction images with
  | nil => rfl
  | cons o rest ih =>
    cases o <;> simp [placeImages, ih]

/-- C6 (counterexample): when the network fetch fails, the failure is
not cached — two successive lookups of the same key perform two fetches,
not at most one. -/
theorem claim_C6_counterexample :
    (getEmojiImage (fun _ => "aaaa") (fun _ => none) ⟨[], []⟩ "g").2.2 +
      (getEmojiImage (fun _ => "aaaa") (fun _ => none)
        (getEmojiImage (fun _ => "aaaa") (fun _ => none) ⟨[], []⟩ "g").2.1
        "g").2.2 = 2 ∧
    ¬((getEmojiImage (fun _ => "aaaa") (fun _ => none) ⟨[], []⟩ "g").2.2 +
      (getEmojiImage (fun _ => "aaaa") (fun _ => none)
        (getEmojiImage (fun _ => "aaaa") (fun _ => none) ⟨[], []⟩ "g").2.1
        "g").2.2 ≤ 1) := by
  decide

/-- C6 (amended): whenever the first call succeeds (returns a cached
path), the second call with the same key is served from the cache: it
returns the same path, leaves the state unchanged, performs no fetch,
and the two calls together perform at most one fetch.  (When the first
call's fetch fails, nothing is cached and the next call fetches again.) -/
theorem claim_C6_amended (hashHex : String → String)
    (fetch : String → Option String) (st : CacheState) (k : String) (p : String)
    (h : (getEmojiImage hashHex fetch st k).1 = some p) :
    getEmojiImage hashHex fetch (getEmojiImage hashHex fetch st k).2.1 k =
      (some p, (getEmojiImage hashHex fetch st k).2.1, 0) ∧
    (getEmojiImage hashHex fetch st k).2.2 +
      (getEmojiImage hashHex fetch (getEmojiImage hashHex fetch st k).2.1
        k).2.2 ≤ 1 := by
  cases hlk : st.mapping.lookup k with
  | some fn =>
    simp only [getEmojiImage, hlk] at h ⊢
    refine ⟨?_, by norm_num⟩
    rw [← h]
  | none =>
    by_cases hdisk : getEmojiFilename hashHex k ∈ st.disk
    · simp only [getEmojiImage, hlk, if_pos hdisk] at h ⊢
      rw [List.lookup_cons_self]
      rw [← h]
      exact ⟨rfl, by norm_num⟩
    · cases hf : fetch k with
      | none =>
        simp only [getEmojiImage, hlk, if_neg hdisk, hf] at h
        exact Option.noConfusion h
      | some b =>
        simp only [getEmojiImage, hlk, if_neg hdisk, hf] at h ⊢
        rw [List.lookup_cons_self]
        rw [← h]
        exact ⟨rfl, by norm_num⟩

/-- C6 (witness): the amended statement with a succeeding fetch on an
empty cache. -/
theorem claim_C6_witness :
    getEmojiImage (fun _ => "aaaa") (fun _ => some "bytes")
        (getEmojiImage (fun _ => "aaaa") (fun _ => some "bytes") ⟨[], []⟩
          "g").2.1 "g" =
      (some "emoji_cache/emoji_aaaa.png",
        (getEmojiImage (fun _ => "aaaa") (fun _ => some "bytes") ⟨[], []⟩
          "g").2.1, 0) ∧
    (getEmojiImage (fun _ => "aaaa") (fun _ => some "bytes") ⟨[], []⟩ "g").2.2 +
      (getEmojiImage (fun _ => "aaaa") (fun _ => some "bytes")
        (getEmojiImage (fun _ => "aaaa") (fun _ => some "bytes") ⟨[], []⟩
          "g").2.1 "g").2.2 ≤ 1 :=
  claim_C6_amended (fun _ => "aaaa") (fun _ => some "bytes") ⟨[], []⟩ "g"
    "emoji_cache/emoji_aaaa.png" (by decide)

/-- C7 (counterexample): the cleaned title `a!b` yields the filename
`20230501_ab.pdf` — the `!` is deleted, not replaced by an underscore as
the claim states (which would give `20230501_a_b.pdf`). -/
theorem claim_C7_counterexample :
    getFilename ⟨1, "a!b".toList, "2023-05-01T10:00:00Z".toList⟩ =
      "20230501_ab.pdf".toList ∧
    "20230501_".toList ++ claimSlug (cleanHtmlText "a!b".toList) ++
        ".pdf".toList = "20230501_a_b.pdf".toList ∧
    getFilename ⟨1, "a!b".toList, "2023-05-01T10:00:00Z".toList⟩ ≠
      "20230501_".toList ++ claimSlug (cleanHtmlText "a!b".toList) ++
        ".pdf".toList := by
  refine ⟨by decide, by decide, by decide⟩

/-- C7 (amended): for a parseable publish date the filename is the date
as `YYYYMMDD`, an underscore, and the slug obtained from the cleaned
title by deleting characters that are neither word characters nor
whitespace nor hyphens, replacing each whitespace/hyphen run with a
single underscore, truncating to 50 characters and stripping underscores
from both ends, followed by `.pdf`. -/
theorem claim_C7_amended (post : PostRecord) (dt : PyDateTime)
    (h : parseIsoDate (replaceZ post.date) = some dt) :
    getFilename post =
      fmtDate8 dt ++ ['_'] ++ slugAmendedSpec (cleanHtmlText post.title) ++
        ".pdf".toList := by
  unfold getFilename
  rw [h]
  unfold slugAmendedSpec slugOfTitle
  rw [collapseSeps_eq_fold]

/-- C7 (witness): the amended statement at the end-to-end scenario post. -/
theorem claim_C7_witness :
    getFilename ⟨7, "Hello <b>World</b>".toList, "2023-05-01T10:00:00Z".toList⟩ =
      fmtDate8 ⟨2023, 5, 1, 10, 0, 0⟩ ++ ['_'] ++
        slugAmendedSpec (cleanHtmlText "Hello <b>World</b>".toList) ++
        ".pdf".toList :=
  claim_C7_amended ⟨7, "Hello <b>World</b>".toList, "2023-05-01T10:00:00Z".toList⟩
    ⟨2023, 5, 1, 10, 0, 0⟩ (by decide)

/-- C8: when the publish date does not parse (after the `Z`
replacement), date formatting returns the raw string unchanged and the
filename falls back to `unknown_date_<id>.pdf`. -/
theorem claim_C8 (post : PostRecord)
    (h : parseIsoDate (replaceZ post.date) = none) :
    formatDate post.date = post.date ∧
    getFilename post =
      "unknown_date_".toList ++ (toString post.id).toList ++ ".pdf".toList := by
  constructor
  · unfold formatDate
    rw [h]
  · unfold getFilename
    rw [h]

/-- C8 (witness): the fallback at the concrete unparseable date
`not-a-date`. -/
theorem claim_C8_witness :
    formatDate "not-a-date".toList = "not-a-date".toList ∧
    getFilename ⟨9, "t".toList, "not-a-date".toList⟩ =
      "unknown_date_".toList ++ (toString (9 : Nat)).toList ++ ".pdf".toList :=
  claim_C8 ⟨9, "t".toList, "not-a-date".toList⟩ (by decide)

/-- C9 (counterexample): at a concrete post, the degraded error document
is written under `<base>/errors`, while that post's successful documents
go to the per-post directory `<base>/7_hello` — not the same output
directory. -/
theorem claim_C9_counterexample :
    errorPdfPath "test_output".toList ⟨7, "Hello".toList, "2023-05-01".toList⟩ =
      "test_output/errors/error_7_hello.pdf".toList ∧
    postDirectory "test_output".toList ⟨7, "Hello".toList, "2023-05-01".toList⟩ =
      "test_output/7_hello".toList ∧
    errorsDirectory "test_output".toList ≠
      postDirectory "test_output".toList ⟨7, "Hello".toList, "2023-05-01".toList⟩ := by
  refine ⟨by decide, by decide, by decide⟩

/-- C9 (amended): the degraded error document is written into the
dedicated `errors` subdirectory of the base output directory with
filename `error_<postId>_<sanitizedTitle>.pdf`, while a successful
document goes into the per-post directory `<base>/<id>_<slug>`; the two
directories never coincide. -/
theorem claim_C9_amended (baseDir : List Char) (post : PostRecord) :
    errorPdfPath baseDir post =
      errorsDirectory baseDir ++ ['/'] ++ "error_".toList ++
        (toString post.id).toList ++ ['_'] ++
        cleanForPath (cleanForDisplay post.title) ++ ".pdf".toList ∧
    successPdfPath baseDir post = postDirectory baseDir post ++ ['/'] ++
      getFilename post ∧
    errorsDirectory baseDir ≠ postDirectory baseDir post :=
  ⟨rfl, rfl, errorsDir_ne_postDir baseDir post⟩

/-- C10: text/glyph segmentation is content-preserving and well-formed
whenever every glyph-table entry is non-empty: the segment contents
concatenate back to the input, text segments are non-empty, and no two
text segments are adjacent. -/
theorem claim_C10 (table : List (List Char)) (text : List Char)
    (hT : ∀ em ∈ table, em ≠ []) :
    ((splitTextAndEmojis table text).map Prod.snd).flatten = text ∧
    (∀ seg ∈ splitTextAndEmojis table text, seg.1 = false → seg.2 ≠ []) ∧
    List.Chain' (fun a b => a.1 = true ∨ b.1 = true)
      (splitTextAndEmojis table text) := by
  refine ⟨?_, splitLoop_text_ne_nil table text.length [] text,
    splitLoop_chain table text.length [] text⟩
  have h := splitLoop_flatten table hT text.length [] text le_rfl
  simpa [splitTextAndEmojis] using h

/-- C10 (witness): segmentation of `"Text 😀 more"` against the
one-entry glyph table `{😀}`. -/
theorem claim_C10_witness :
    ((splitTextAndEmojis [String.toList "😀"] "Text 😀 more".toList).map
      Prod.snd).flatten = "Text 😀 more".toList ∧
    (∀ seg ∈ splitTextAndEmojis [String.toList "😀"] "Text 😀 more".toList,
      seg.1 = false → seg.2 ≠ []) ∧
    List.Chain' (fun a b => a.1 = true ∨ b.1 = true)
      (splitTextAndEmojis [String.toList "😀"] "Text 😀 more".toList) :=
  claim_C10 [String.toList "😀"] "Text 😀 more".toList (by decide)

end Wp2Pdf
